import Mathlib

/-!
Verification development for the tBTC cross-chain relayer.

This file gives a shallow embedding of the relayer's deposit pipeline:
the deposit record and its pure update functions (src/utils/Deposits.ts),
the EVM chain handler's transaction flows, event listener and reconciler
passes (src/handlers/EVMChainHandler.ts), the standalone finalize task,
and the block-by-timestamp binary search.  Stateful code is embedded as
explicit state passing over an association-list store; the wall clock,
the ethers library (keccak256, transaction hashing) and the JSON-RPC
chain are passed in as explicit parameters/oracles.  Machine numbers are
Nat/Int; fallible code returns Except/Option.

The JSON file store (src/utils/JsonUtils.ts) and the transaction-hash
helpers (src/utils/GetTransactionHash.ts) are not among the provided
sources; their operations are modelled from the spec where indicated.
-/

namespace Relayer

/-- Deposit status enum (DepositStatus.enum.ts, spec section 6): numeric values
matching the on-chain contract: QUEUED=0, INITIALIZED=1, FINALIZED=2. -/
def DepositStatus.QUEUED : Nat := 0

/-- Status value 1: the L1 ceremony's first call has been mined. -/
def DepositStatus.INITIALIZED : Nat := 1

/-- Status value 2: the L1 ceremony's second call has been mined. -/
def DepositStatus.FINALIZED : Nat := 2

/-- Bitcoin funding transaction as carried in the L2 event and in
Deposit.L1OutputEvent (FundingTransaction.type.ts): four opaque byte strings. -/
structure FundingTransaction where
  version : String
  inputVector : String
  outputVector : String
  locktime : String
deriving DecidableEq

/-- The positional reveal tuple from the DepositInitialized event:
reveal[0] is the funding output index, reveal[1]..reveal[5] are opaque
byte strings (spec section 9: treat the tuple as a declared struct). -/
structure Reveal where
  fundingOutputIndex : Nat
  blindingFactor : String
  walletPubKeyHash : String
  refundPubKeyHash : String
  refundLocktime : String
  extraData : String
deriving DecidableEq

/-- Ethereum-side transaction hashes of a deposit record (nullable). -/
structure EthHashes where
  initializeTxHash : Option String
  finalizeTxHash : Option String
deriving DecidableEq

/-- Bitcoin-side hash of a deposit record. -/
structure BtcHashes where
  btcTxHash : String
deriving DecidableEq

/-- The hashes field of a deposit record (Deposit.type.ts). -/
structure Hashes where
  btc : BtcHashes
  eth : EthHashes
deriving DecidableEq

/-- The receipt field of a deposit record (Deposit.type.ts). -/
structure Receipt where
  depositor : String
  blindingFactor : String
  walletPublicKeyHash : String
  refundPublicKeyHash : String
  refundLocktime : String
  extraData : String
deriving DecidableEq

/-- The raw L2 event payload kept on the record for the later L1 calls. -/
structure L1OutputEventData where
  fundingTx : FundingTransaction
  reveal : Reveal
  l2DepositOwner : String
  l2Sender : String
deriving DecidableEq

/-- The dates field of a deposit record: epoch milliseconds;
initializationAt/finalizationAt are nullable. -/
structure Dates where
  createdAt : Option Nat
  initializationAt : Option Nat
  finalizationAt : Option Nat
  lastActivityAt : Nat
deriving DecidableEq

/-- The deposit record (Deposit.type.ts).  `status` is the raw number the
source stores and compares (DepositStatus values). -/
structure Deposit where
  id : String
  fundingTxHash : String
  outputIndex : Nat
  hashes : Hashes
  receipt : Receipt
  owner : String
  status : Nat
  L1OutputEvent : L1OutputEventData
  dates : Dates
  error : Option String
deriving DecidableEq

/-- The persistent deposit store: key-to-record map, keyed by deposit id
(one JSON file per id).  Embedded as an association list. -/
abbrev DepositStore := List (String × Deposit)

/-- Modelled from the spec (section 4.1): JsonUtils.getJsonById, the store's
get(id), reading the current record or absent.  JsonUtils.ts is not among
the provided sources. -/
def getJsonById (store : DepositStore) (id : String) : Option Deposit :=
  (store.find? (fun p => p.1 == id)).map (fun p => p.2)

/-- Modelled from the spec (section 4.1): JsonUtils.writeJson, the store's
put(record): overwrites the record stored under the given id. -/
def writeJson (store : DepositStore) (deposit : Deposit) (id : String) : DepositStore :=
  (id, deposit) :: store.filter (fun p => p.1 != id)

/-- Modelled from the spec (sections 4.1 and 4.3): JsonUtils.writeNewJsonDeposit,
write-if-absent: a duplicate id preserves the earlier record. -/
def writeNewJsonDeposit (store : DepositStore) (deposit : Deposit) : DepositStore :=
  if (getJsonById store deposit.id).isSome then store else writeJson store deposit deposit.id

/-- Modelled from the spec (section 4.1): JsonUtils.getAllJsonOperationsByStatus,
the store's listByStatus(s): list() filtered on status == s. -/
def getAllJsonOperationsByStatus (store : DepositStore) (status : Nat) : List Deposit :=
  (store.map (fun p => p.2)).filter (fun d => d.status == status)

/-- A JavaScript value passed where a transaction object is expected.
`hash` is the value of its .hash property; `none` models an absent or
falsy .hash (e.g. when a plain string is passed as tx).  A `tx : Option
TxLike` argument renders the source's optional `tx?: any`; `none` is a
missing/null/undefined argument, `some` any truthy value. -/
structure TxLike where
  hash : Option String
deriving DecidableEq

/-- updateToFinalizedDeposit (src/utils/Deposits.ts): sets status FINALIZED,
finalizationAt and finalizeTxHash when a (truthy) tx is given, otherwise
keeps them; always bumps lastActivityAt and replaces error.  `now` renders
Date.now(). -/
def updateToFinalizedDeposit (deposit : Deposit) (tx : Option TxLike)
    (error : Option String) (now : Nat) : Deposit :=
  let newStatus := if tx.isSome then DepositStatus.FINALIZED else deposit.status
  let newFinalizationAt := if tx.isSome then some now else deposit.dates.finalizationAt
  let newHash := match tx with
    | some t => { deposit.hashes with eth := { deposit.hashes.eth with finalizeTxHash := t.hash } }
    | none => deposit.hashes
  { deposit with
    status := newStatus
    dates := { deposit.dates with finalizationAt := newFinalizationAt, lastActivityAt := now }
    hashes := newHash
    error := error }

/-- updateToInitializedDeposit (src/utils/Deposits.ts): sets status INITIALIZED,
initializationAt and initializeTxHash when a (truthy) tx is given, otherwise
keeps them; always bumps lastActivityAt and replaces error. -/
def updateToInitializedDeposit (deposit : Deposit) (tx : Option TxLike)
    (error : Option String) (now : Nat) : Deposit :=
  let newStatus := if tx.isSome then DepositStatus.INITIALIZED else deposit.status
  let newInitializationAt := if tx.isSome then some now else deposit.dates.initializationAt
  let newHash := match tx with
    | some t => { deposit.hashes with eth := { deposit.hashes.eth with initializeTxHash := t.hash } }
    | none => deposit.hashes
  { deposit with
    status := newStatus
    dates := { deposit.dates with initializationAt := newInitializationAt, lastActivityAt := now }
    hashes := newHash
    error := error }

/-- updateLastActivity (src/utils/Deposits.ts): bumps lastActivityAt only. -/
def updateLastActivity (deposit : Deposit) (now : Nat) : Deposit :=
  { deposit with dates := { deposit.dates with lastActivityAt := now } }

/-- updateDepositStatus (src/utils/Deposits.ts): sets status and bumps
lastActivityAt. -/
def updateDepositStatus (deposit : Deposit) (newStatus : Nat) (now : Nat) : Deposit :=
  { deposit with
    status := newStatus
    dates := { deposit.dates with lastActivityAt := now } }

/-- updateDepositHashes (src/utils/Deposits.ts): sets status, records the tx
hash and timestamp selected by txType ("initialize" or "finalize"), bumps
lastActivityAt and clears error.  The conditional object spreads of the
source become conditional field updates. -/
def updateDepositHashes (deposit : Deposit) (newStatus : Nat) (txHash : String)
    (txType : String) (now : Nat) : Deposit :=
  let updatedHashes :=
    { deposit.hashes with eth :=
      { initializeTxHash :=
          (if txType == "initialize" then some txHash else deposit.hashes.eth.initializeTxHash),
        finalizeTxHash :=
          (if txType == "finalize" then some txHash else deposit.hashes.eth.finalizeTxHash) } }
  let updatedDates :=
    { deposit.dates with
      initializationAt :=
        (if txType == "initialize" then some now else deposit.dates.initializationAt),
      finalizationAt :=
        (if txType == "finalize" then some now else deposit.dates.finalizationAt),
      lastActivityAt := now }
  { deposit with
    status := newStatus
    hashes := updatedHashes
    dates := updatedDates
    error := none }

/-- Value of a single hexadecimal digit character, or none when the
character is not a hex digit (ethers' arrayify rejects it). -/
def hexDigitVal? (c : Char) : Option Nat :=
  if '0' ≤ c ∧ c ≤ '9' then some (c.toNat - '0'.toNat)
  else if 'a' ≤ c ∧ c ≤ 'f' then some (c.toNat - 'a'.toNat + 10)
  else if 'A' ≤ c ∧ c ≤ 'F' then some (c.toNat - 'A'.toNat + 10)
  else none

/-- Bytes of a hex string (two characters per byte); none when a character
is not a hex digit or the length is odd. -/
def hexBytes? : List Char → Option (List Nat)
  | [] => some []
  | c1 :: c2 :: rest => do
      let hi ← hexDigitVal? c1
      let lo ← hexDigitVal? c2
      let tail ← hexBytes? rest
      pure ((16 * hi + lo) :: tail)
  | [_] => none

/-- Big-endian 4-byte encoding of a uint32, as solidityPack produces for a
uint32 value. -/
def u32be (n : Nat) : List Nat :=
  [n / 2 ^ 24 % 256, n / 2 ^ 16 % 256, n / 2 ^ 8 % 256, n % 256]

/-- Unsigned big-endian integer value of a byte string; this is how
BigNumber.from interprets a 0x-prefixed hash. -/
def beBytesToNat (bytes : List Nat) : Nat :=
  bytes.foldl (fun acc b => 256 * acc + b) 0

/-- getDepositId (src/utils/Deposits.ts): throws unless fundingTxHash has
exactly 64 characters; packs the 32 hash bytes with the big-endian uint32
output index (ethers solidityPack), hashes with keccak256 and returns the
decimal string of the resulting uint256 (BigNumber.toString).  The ethers
keccak256 primitive is passed in as an opaque 32-byte-valued function; a
non-hex fundingTxHash makes the ethers packing itself throw. -/
def getDepositId (keccak : List Nat → List Nat) (fundingTxHash : String)
    (fundingOutputIndex : Nat) : Except String String :=
  if fundingTxHash.length ≠ 64 then .error "Invalid fundingTxHash"
  else match hexBytes? fundingTxHash.data with
    | none => .error "invalid arrayify value"
    | some fundingTxHashBytes =>
      let encodedData := fundingTxHashBytes ++ u32be fundingOutputIndex
      let hash := keccak encodedData
      .ok (Nat.repr (beBytesToNat hash))

/-- Modelled from the spec (section 3): the deposit id as the spec words it,
"decimal representation of keccak256(bytes32(fundingTxHash_big_endian) ||
uint32_be(outputIndex)) interpreted as u256", given the 32 parsed hash
bytes.  Stated separately from `getDepositId` so the code can be compared
against it. -/
def depositIdOfSpec (keccak : List Nat → List Nat) (hashBytes : List Nat)
    (outputIndex : Nat) : String :=
  Nat.repr (beBytesToNat (keccak (hashBytes ++ u32be outputIndex)))

/-- Opaque library/utility functions the deposit constructors depend on:
ethers keccak256 and the two helpers of src/utils/GetTransactionHash.ts
(not among the provided sources; spec section 1 treats Bitcoin transaction
hashing as an opaque function). -/
structure Env where
  keccak : List Nat → List Nat
  getFundingTxHash : FundingTransaction → String
  getTransactionHash : FundingTransaction → String

/-- createDeposit (src/utils/Deposits.ts): builds the QUEUED record from the
event payload; propagates the getDepositId failure as an Except error
(the source throws).  `now` renders the two new Date().getTime() reads. -/
def createDeposit (env : Env) (fundingTx : FundingTransaction) (reveal : Reveal)
    (l2DepositOwner : String) (l2Sender : String) (now : Nat) : Except String Deposit :=
  let fundingTxHash := env.getFundingTxHash fundingTx
  match getDepositId env.keccak fundingTxHash reveal.fundingOutputIndex with
  | .error e => .error e
  | .ok depositId => .ok
    { id := depositId
      fundingTxHash := fundingTxHash
      outputIndex := reveal.fundingOutputIndex
      hashes :=
        { btc := { btcTxHash := env.getTransactionHash fundingTx }
          eth := { initializeTxHash := none, finalizeTxHash := none } }
      receipt :=
        { depositor := l2Sender
          blindingFactor := reveal.blindingFactor
          walletPublicKeyHash := reveal.walletPubKeyHash
          refundPublicKeyHash := reveal.refundPubKeyHash
          refundLocktime := reveal.refundLocktime
          extraData := reveal.extraData }
      L1OutputEvent :=
        { fundingTx := fundingTx
          reveal := reveal
          l2DepositOwner := l2DepositOwner
          l2Sender := l2Sender }
      owner := l2DepositOwner
      status := DepositStatus.QUEUED
      dates :=
        { createdAt := some now
          initializationAt := none
          finalizationAt := none
          lastActivityAt := now }
      error := none }

/-- Outcome of one pre-flight-then-send attempt against the L1 contract,
as observed by the try/catch in the handler: the pre-flight callStatic
reverts, the send itself throws, tx.wait() throws (mined with revert), or
the transaction is mined.  `reason` is the error's .reason property
(`none` when absent or falsy, making the catch use "Unknown error"). -/
inductive ChainTxOutcome where
  | preflightRevert (reason : Option String)
  | sendError (reason : Option String)
  | minedRevert (reason : Option String)
  | success (txHash : Option String)
deriving DecidableEq

/-- True on the outcomes that land in the catch block. -/
def ChainTxOutcome.isError : ChainTxOutcome → Bool
  | .success _ => false
  | _ => true

/-- The .reason of the caught error, for the error outcomes. -/
def ChainTxOutcome.errReason : ChainTxOutcome → Option String
  | .preflightRevert r => r
  | .sendError r => r
  | .minedRevert r => r
  | .success _ => none

/-- Result of one initializeDeposit/finalizeDeposit call: the record the
call persists, and the ids for which an L1 transaction was sent. -/
structure TxAttemptResult where
  record : Deposit
  sent : List String
deriving DecidableEq

/-- EVMChainHandler.initializeDeposit: pre-flight callStatic, then send and
wait; on success persists via updateToInitializedDeposit(deposit, tx), on
any caught error persists via updateToInitializedDeposit(deposit, null,
error.reason or "Unknown error").  A pre-flight revert or a failed send
sends no transaction.  Nonce plumbing is elided: it does not affect the
persisted record. -/
def EVMChainHandler.initializeDeposit (deposit : Deposit) (outcome : ChainTxOutcome)
    (now : Nat) : TxAttemptResult :=
  match outcome with
  | .preflightRevert reason =>
      { record := updateToInitializedDeposit deposit none (some (reason.getD "Unknown error")) now
        sent := [] }
  | .sendError reason =>
      { record := updateToInitializedDeposit deposit none (some (reason.getD "Unknown error")) now
        sent := [] }
  | .minedRevert reason =>
      { record := updateToInitializedDeposit deposit none (some (reason.getD "Unknown error")) now
        sent := [deposit.id] }
  | .success txHash =>
      { record := updateToInitializedDeposit deposit (some { hash := txHash }) none now
        sent := [deposit.id] }

/-- EVMChainHandler.finalizeDeposit: same discipline as initializeDeposit,
persisting via updateToFinalizedDeposit; the callStatic-returned value
(clamped at zero) only feeds the sent transaction and is elided. -/
def EVMChainHandler.finalizeDeposit (deposit : Deposit) (outcome : ChainTxOutcome)
    (now : Nat) : TxAttemptResult :=
  match outcome with
  | .preflightRevert reason =>
      { record := updateToFinalizedDeposit deposit none (some (reason.getD "Unknown error")) now
        sent := [] }
  | .sendError reason =>
      { record := updateToFinalizedDeposit deposit none (some (reason.getD "Unknown error")) now
        sent := [] }
  | .minedRevert reason =>
      { record := updateToFinalizedDeposit deposit none (some (reason.getD "Unknown error")) now
        sent := [deposit.id] }
  | .success txHash =>
      { record := updateToFinalizedDeposit deposit (some { hash := txHash }) none now
        sent := [deposit.id] }

/-- EVMChainHandler.checkDepositStatus: returns the raw number read from
L1BitcoinDepositor.deposits(id); the catch returns 0.  The read outcome is
passed in as an Except. -/
def EVMChainHandler.checkDepositStatus (readResult : Except String Nat) : Nat :=
  match readResult with
  | .ok n => n
  | .error _ => 0

/-- TIME_TO_RETRY (EVMChainHandler): 5 minutes in milliseconds. -/
def TIME_TO_RETRY : Nat := 1000 * 60 * 5

/-- EVMChainHandler.filterDepositsActivityTime: keeps deposits with strictly
more than TIME_TO_RETRY ms since lastActivityAt.  Nat subtraction truncates
at 0 exactly where the JS difference is negative, and a negative difference
also fails the JS comparison, so the predicates agree. -/
def filterDepositsActivityTime (deposits : List Deposit) (now : Nat) : List Deposit :=
  deposits.filter (fun deposit => now - deposit.dates.lastActivityAt > TIME_TO_RETRY)

/-- Chain oracle for one reconciler tick: the wall clock, the outcome of the
L1BitcoinDepositor.deposits(id) read per id, and the outcome of the
initialize/finalize attempt per id. -/
structure TickEnv where
  now : Nat
  depositsCall : String → Except String Nat
  initOutcome : String → ChainTxOutcome
  finOutcome : String → ChainTxOutcome

/-- One iteration body of processInitializeDeposits after the
updateLastActivity write, acting on the activity-bumped record `u`:
switch on the on-chain status; returns the record the branch persists
(none when the default branch persists nothing further) and the ids for
which a transaction was sent. -/
def initPassStep (env : TickEnv) (u : Deposit) : Option Deposit × List String :=
  match EVMChainHandler.checkDepositStatus (env.depositsCall u.id) with
  | 1 => (some (updateToInitializedDeposit u (some { hash := none }) none env.now), [])
  | 0 =>
      let r := EVMChainHandler.initializeDeposit u (env.initOutcome u.id) env.now
      (some r.record, r.sent)
  | 2 => (some (updateToFinalizedDeposit u (some { hash := none }) none env.now), [])
  | _ => (none, [])

/-- One iteration body of processFinalizeDeposits after the
updateLastActivity write: INITIALIZED attempts finalizeDeposit, FINALIZED
persists the remote fact, anything else only logs. -/
def finPassStep (env : TickEnv) (u : Deposit) : Option Deposit × List String :=
  match EVMChainHandler.checkDepositStatus (env.depositsCall u.id) with
  | 1 =>
      let r := EVMChainHandler.finalizeDeposit u (env.finOutcome u.id) env.now
      (some r.record, r.sent)
  | 2 => (some (updateToFinalizedDeposit u (some { hash := none }) none env.now), [])
  | _ => (none, [])

/-- Result of one reconciler pass: the store after the tick, the ids whose
on-chain status was checked, and the ids for which a transaction was sent. -/
structure TickResult where
  store : DepositStore
  checked : List String
  sent : List String

/-- The per-deposit loop shared by both reconciler passes: for each filtered
deposit, persist the updateLastActivity bump, check the on-chain status and
run the switch body, which may persist one more record under the same id. -/
def runPass (step : TickEnv → Deposit → Option Deposit × List String) (env : TickEnv) :
    List Deposit → DepositStore → TickResult
  | [], store => { store := store, checked := [], sent := [] }
  | d :: rest, store =>
      let u := updateLastActivity d env.now
      let store1 := writeJson store u d.id
      let store2 := match (step env u).1 with
        | some rec => writeJson store1 rec u.id
        | none => store1
      let r := runPass step env rest store2
      { store := r.store, checked := u.id :: r.checked, sent := (step env u).2 ++ r.sent }

/-- EVMChainHandler.processInitializeDeposits: list the QUEUED records,
apply the activity throttle, and run the initialize switch on each. -/
def processInitializeDeposits (env : TickEnv) (store : DepositStore) : TickResult :=
  let queuedDeposits := getAllJsonOperationsByStatus store DepositStatus.QUEUED
  let filteredDeposits := filterDepositsActivityTime queuedDeposits env.now
  runPass initPassStep env filteredDeposits store

/-- EVMChainHandler.processFinalizeDeposits: list the INITIALIZED records,
apply the activity throttle, and run the finalize switch on each. -/
def processFinalizeDeposits (env : TickEnv) (store : DepositStore) : TickResult :=
  let initializedDeposits := getAllJsonOperationsByStatus store DepositStatus.INITIALIZED
  let filteredDeposits := filterDepositsActivityTime initializedDeposits env.now
  runPass finPassStep env filteredDeposits store

/-- The DepositInitialized listener body of EVMChainHandler.setupListeners:
create the record, write it if absent, then attempt initializeDeposit on
the freshly created record (not on the stored one).  A createDeposit throw
is caught and only logged.  Returns the store and the sent-transaction ids. -/
def depositInitializedListener (env : Env) (fundingTx : FundingTransaction)
    (reveal : Reveal) (l2DepositOwner : String) (l2Sender : String)
    (outcome : ChainTxOutcome) (now : Nat) (store : DepositStore) :
    DepositStore × List String :=
  match createDeposit env fundingTx reveal l2DepositOwner l2Sender now with
  | .error _ => (store, [])
  | .ok deposit =>
      let store1 := writeNewJsonDeposit store deposit
      let r := EVMChainHandler.initializeDeposit deposit outcome now
      (writeJson store1 r.record deposit.id, r.sent)

/-- A historical DepositInitialized event as consumed by
EVMChainHandler.checkForPastDeposits.  `fundingTxTransactionHash` is the
value of the .transactionHash property the source reads off the fundingTx
tuple (the key it deduplicates by). -/
structure PastEvent where
  fundingTx : FundingTransaction
  reveal : Reveal
  l2DepositOwner : String
  l2Sender : String
  fundingTxTransactionHash : String
deriving DecidableEq

/-- EVMChainHandler.checkForPastDeposits, after the block-range query: for
each event, look up the store by fundingTx.transactionHash; when absent,
create the record, write it if absent, and attempt initializeDeposit.  A
createDeposit throw propagates to the outer catch, which logs and abandons
the remaining events, throwing nothing.  Returns the store and the ids on
which initializeDeposit was attempted. -/
def EVMChainHandler.checkForPastDeposits (env : Env) (outcomes : String → ChainTxOutcome)
    (now : Nat) : List PastEvent → DepositStore → DepositStore × List String
  | [], store => (store, [])
  | ev :: rest, store =>
      match getJsonById store ev.fundingTxTransactionHash with
      | some _ => EVMChainHandler.checkForPastDeposits env outcomes now rest store
      | none =>
          match createDeposit env ev.fundingTx ev.reveal ev.l2DepositOwner ev.l2Sender now with
          | .error _ => (store, [])
          | .ok newDeposit =>
              let store1 := writeNewJsonDeposit store newDeposit
              let r := EVMChainHandler.initializeDeposit newDeposit (outcomes newDeposit.id) now
              let store2 := writeJson store1 r.record newDeposit.id
              let rec2 := EVMChainHandler.checkForPastDeposits env outcomes now rest store2
              (rec2.1, newDeposit.id :: rec2.2)

/-- A block header as consulted by getBlocksByTimestamp: only the timestamp
is read. -/
structure BlockHeader where
  timestamp : Nat
deriving DecidableEq

/-- How the try block of getBlocksByTimestamp ends: the while loop ran to
completion (normally or through the break), or a thrown providerL2.getBlock
escaped to the outer catch, which only logs.  Both carry the value the
startBlock variable holds at that moment: none renders the untouched -1
sentinel, some m a recorded lower-bound candidate. -/
inductive LoopExit where
  | completed (startBlock : Option Int)
  | aborted (startBlock : Option Int)
deriving DecidableEq

/-- The startBlock variable at loop exit, for either exit kind. -/
def LoopExit.startBlock : LoopExit → Option Int
  | .completed s => s
  | .aborted s => s

/-- The while loop of getBlocksByTimestamp (src/utils/Deposits.ts): binary
search between low and high.  providerL2.getBlock is a fallible oracle:
a thrown call (.error, an RPC failure) aborts the loop into the outer
catch; a null block (.ok none) narrows high; an exact timestamp match
stops with the midpoint; a smaller timestamp records the midpoint as the
lower-bound candidate and moves low up; a larger one moves high down.
The source's -1 sentinel for "no candidate yet" is rendered as none.
Math.floor((low + high) / 2) is Int division, which is euclidean (floor,
for the positive divisor 2) in Lean. -/
def getBlocksByTimestampLoop (getBlock : Int → Except String (Option BlockHeader))
    (timestamp : Nat) (low high : Int) (startBlock : Option Int) : LoopExit :=
  if _h : low ≤ high then
    let mid := (low + high) / 2
    match getBlock mid with
    | .error _ => .aborted startBlock
    | .ok none => getBlocksByTimestampLoop getBlock timestamp low (mid - 1) startBlock
    | .ok (some blockData) =>
      if blockData.timestamp = timestamp then .completed (some mid)
      else if blockData.timestamp < timestamp then
        getBlocksByTimestampLoop getBlock timestamp (mid + 1) high (some mid)
      else getBlocksByTimestampLoop getBlock timestamp low (mid - 1) startBlock
  else .completed startBlock
termination_by (high + 1 - low).toNat
decreasing_by
  all_goals omega

/-- getBlocksByTimestamp (src/utils/Deposits.ts): runs the binary search over
[START_BLOCK, latestBlock].  On normal completion the -1 sentinel falls
back to START_BLOCK; when a getBlock throw reaches the catch, the
startBlock === -1 fallback inside the try is skipped, so the function
returns the candidate found so far — the -1 sentinel itself when none.
endBlock is always the latestBlock captured before the loop (that
assignment precedes any fallible call). -/
def getBlocksByTimestamp (getBlock : Int → Except String (Option BlockHeader))
    (START_BLOCK : Nat) (timestamp : Nat) (latestBlock : Nat) : Int × Nat :=
  match getBlocksByTimestampLoop getBlock timestamp
      (START_BLOCK : Int) (latestBlock : Int) none with
  | .completed startBlock => (startBlock.getD (START_BLOCK : Int), latestBlock)
  | .aborted startBlock => (startBlock.getD (-1), latestBlock)

/-- The spec's record invariant (sections 3 and 8): a set finalizeTxHash
forces status FINALIZED, a set initializeTxHash forces status at least
INITIALIZED. -/
def hashStatusInvariant (d : Deposit) : Prop :=
  (d.hashes.eth.finalizeTxHash ≠ none → d.status = DepositStatus.FINALIZED) ∧
  (d.hashes.eth.initializeTxHash ≠ none → DepositStatus.INITIALIZED ≤ d.status)

instance (d : Deposit) : Decidable (hashStatusInvariant d) := by
  unfold hashStatusInvariant
  infer_instance

/-- The store keys each record by its own id (the <id>.json naming). -/
def wellKeyed (store : DepositStore) : Prop :=
  ∀ p ∈ store, p.2.id = p.1

instance (store : DepositStore) : Decidable (wellKeyed store) := by
  unfold wellKeyed
  infer_instance

/-- No two store entries share a key (one file per id). -/
def keysNodup (store : DepositStore) : Prop :=
  (store.map (fun p => p.1)).Nodup

instance (store : DepositStore) : Decidable (keysNodup store) := by
  unfold keysNodup
  infer_instance

/-- A 64-character hex string (all zeros), a valid Bitcoin funding tx hash. -/
def z64 : String := String.mk (List.replicate 64 '0')

/-- A concrete funding transaction used in concrete evaluations. -/
def ftx0 : FundingTransaction :=
  { version := "01000000", inputVector := "in", outputVector := "out", locktime := "00000000" }

/-- A concrete reveal tuple with output index 0. -/
def rev0 : Reveal :=
  { fundingOutputIndex := 0, blindingFactor := "bf", walletPubKeyHash := "wpkh"
    refundPubKeyHash := "rpkh", refundLocktime := "rl", extraData := "ed" }

/-- A concrete library environment: a stand-in 32-zero-byte keccak (its value
is irrelevant to the properties evaluated on it) and constant transaction
hashing.  With it every derived deposit id is "0". -/
def env0 : Env :=
  { keccak := fun _ => List.replicate 32 0
    getFundingTxHash := fun _ => z64
    getTransactionHash := fun _ => "btcTx" }

/-- A concrete QUEUED deposit record with id "0". -/
def dBase : Deposit :=
  { id := "0"
    fundingTxHash := z64
    outputIndex := 0
    hashes := { btc := { btcTxHash := "btcTx" }, eth := { initializeTxHash := none, finalizeTxHash := none } }
    receipt := { depositor := "sender", blindingFactor := "bf", walletPublicKeyHash := "wpkh"
                 refundPublicKeyHash := "rpkh", refundLocktime := "rl", extraData := "ed" }
    owner := "owner"
    status := DepositStatus.QUEUED
    L1OutputEvent := { fundingTx := ftx0, reveal := rev0, l2DepositOwner := "owner", l2Sender := "sender" }
    dates := { createdAt := some 10, initializationAt := none, finalizationAt := none, lastActivityAt := 10 }
    error := none }

/-- A concrete INITIALIZED record with id "0". -/
def dInit : Deposit :=
  { dBase with
    status := DepositStatus.INITIALIZED
    hashes := { dBase.hashes with eth := { initializeTxHash := some "0xi", finalizeTxHash := none } }
    dates := { dBase.dates with initializationAt := some 20, lastActivityAt := 20 } }

/-- A concrete FINALIZED record with both tx hashes set; it satisfies the
hash/status invariant. -/
def dFin : Deposit :=
  { dBase with
    status := DepositStatus.FINALIZED
    hashes := { dBase.hashes with eth := { initializeTxHash := some "0xi", finalizeTxHash := some "0xf" } }
    dates := { dBase.dates with initializationAt := some 20, finalizationAt := some 30, lastActivityAt := 30 } }

/-- dBase with recent activity (for the throttle witness). -/
def dRecent : Deposit :=
  { dBase with dates := { dBase.dates with lastActivityAt := 900000 } }

/-- A tick oracle whose status read answers INITIALIZED for every id. -/
def tick1 : TickEnv :=
  { now := 1000000
    depositsCall := fun _ => .ok 1
    initOutcome := fun _ => .success (some "0xa")
    finOutcome := fun _ => .success (some "0xb") }

/-- A tick oracle whose status read answers FINALIZED for every id. -/
def tick2 : TickEnv := { tick1 with depositsCall := fun _ => .ok 2 }

/-- A historical event whose funding transaction derives deposit id "0"
under env0, while the .transactionHash property the handler reads for
deduplication is a 0x-prefixed transaction hash. -/
def ev0 : PastEvent :=
  { fundingTx := ftx0, reveal := rev0, l2DepositOwner := "owner", l2Sender := "sender"
    fundingTxTransactionHash := "0xaaa" }

/-- A block oracle whose every call throws (RPC failure). -/
def getBlockThrows : Int → Except String (Option BlockHeader) :=
  fun _ => Except.error "RPC failure"

/-- A block oracle that never throws and has every block missing. -/
def getBlockAllNull : Int → Except String (Option BlockHeader) :=
  fun _ => Except.ok none

theorem updateLastActivity_id (d : Deposit) (now : Nat) :
    (updateLastActivity d now).id = d.id := rfl

theorem find?_filter_ne (s : DepositStore) (k x : String) (hxk : x ≠ k) :
    (s.filter (fun p => p.1 != k)).find? (fun p => p.1 == x)
      = s.find? (fun p => p.1 == x) := by
  induction s with
  | nil => rfl
  | cons p rest ih =>
      by_cases hpk : p.1 = k
      · have htwo : (p.1 == x) = false := by
          rw [beq_eq_false_iff_ne, hpk]
          exact fun hh => hxk hh.symm
        have hone : (p.1 != k) = false := by simp [hpk]
        rw [List.filter_cons]
        rw [hone]
        simp only [Bool.false_eq_true, if_false]
        rw [ih]
        simp [List.find?_cons, htwo]
      · have hone : (p.1 != k) = true := by simp [hpk]
        rw [List.filter_cons]
        rw [hone]
        simp only [if_true]
        by_cases hpx : (p.1 == x) = true
        · simp [List.find?_cons, hpx]
        · have hpx' : (p.1 == x) = false := by
            cases hb : (p.1 == x) with
            | true => exact absurd hb hpx
            | false => rfl
          simp [List.find?_cons, hpx', ih]

theorem getJsonById_writeJson_self (s : DepositStore) (d : Deposit) (k : String) :
    getJsonById (writeJson s d k) k = some d := by
  simp [getJsonById, writeJson, List.find?_cons]

theorem getJsonById_writeJson_ne (s : DepositStore) (d : Deposit) (k x : String)
    (hxk : x ≠ k) :
    getJsonById (writeJson s d k) x = getJsonById s x := by
  have hk : (k == x) = false := by
    simp only [beq_eq_false_iff_ne, ne_eq]
    exact fun hh => hxk hh.symm
  simp [getJsonById, writeJson, List.find?_cons, hk, find?_filter_ne s k x hxk]

/-- Claim C10: for every deposit and every truthy tx argument with no hash
field (such as a plain string), updateToFinalizedDeposit persists status
FINALIZED with finalizeTxHash null, finalizationAt now and error null, and
updateToInitializedDeposit behaves analogously for INITIALIZED; hence
status FINALIZED does not imply a non-null finalizeTxHash at the store
interface. -/
theorem stringTx_sets_status_without_hash (deposit : Deposit) (t : TxLike)
    (ht : t.hash = none) (now : Nat) :
    (updateToFinalizedDeposit deposit (some t) none now).status = DepositStatus.FINALIZED ∧
    (updateToFinalizedDeposit deposit (some t) none now).hashes.eth.finalizeTxHash = none ∧
    (updateToFinalizedDeposit deposit (some t) none now).dates.finalizationAt = some now ∧
    (updateToFinalizedDeposit deposit (some t) none now).error = none ∧
    (updateToInitializedDeposit deposit (some t) none now).status = DepositStatus.INITIALIZED ∧
    (updateToInitializedDeposit deposit (some t) none now).hashes.eth.initializeTxHash = none ∧
    (updateToInitializedDeposit deposit (some t) none now).dates.initializationAt = some now ∧
    (updateToInitializedDeposit deposit (some t) none now).error = none := by
  simp [updateToFinalizedDeposit, updateToInitializedDeposit, ht]

/-- Witness for C10 at a concrete record and a hashless truthy tx. -/
theorem stringTx_sets_status_without_hash_witness :
    (updateToFinalizedDeposit dBase (some { hash := none }) none 77).status = DepositStatus.FINALIZED ∧
    (updateToFinalizedDeposit dBase (some { hash := none }) none 77).hashes.eth.finalizeTxHash = none ∧
    (updateToFinalizedDeposit dBase (some { hash := none }) none 77).dates.finalizationAt = some 77 ∧
    (updateToFinalizedDeposit dBase (some { hash := none }) none 77).error = none ∧
    (updateToInitializedDeposit dBase (some { hash := none }) none 77).status = DepositStatus.INITIALIZED ∧
    (updateToInitializedDeposit dBase (some { hash := none }) none 77).hashes.eth.initializeTxHash = none ∧
    (updateToInitializedDeposit dBase (some { hash := none }) none 77).dates.initializationAt = some 77 ∧
    (updateToInitializedDeposit dBase (some { hash := none }) none 77).error = none :=
  stringTx_sets_status_without_hash dBase { hash := none } rfl 77

/-- Claim C8 (code_bug evidence): EVMChainHandler.checkDepositStatus maps a
failed contract read to 0, the valid status QUEUED, rather than to an
absent/null result, and passes an unmapped on-chain number such as 7
through unchanged. -/
theorem checkDepositStatus_error_returns_queued :
    EVMChainHandler.checkDepositStatus (Except.error "RPC failure") = DepositStatus.QUEUED ∧
    EVMChainHandler.checkDepositStatus (Except.ok 7) = 7 := by
  decide

/-- Claim C4: on every caught error of initializeDeposit or finalizeDeposit
(pre-flight revert, send error, mined-with-revert), the persisted record
keeps its previous status, initializationAt, finalizationAt and both tx
hashes; its error field becomes the revert reason or "Unknown error"; its
lastActivityAt is bumped to now; and on a pre-flight revert no transaction
is sent. -/
theorem txErrorPathPreservesRecord (d : Deposit) (o : ChainTxOutcome) (now : Nat)
    (herr : o.isError = true) :
    ((EVMChainHandler.initializeDeposit d o now).record.status = d.status ∧
     (EVMChainHandler.initializeDeposit d o now).record.dates.initializationAt
        = d.dates.initializationAt ∧
     (EVMChainHandler.initializeDeposit d o now).record.dates.finalizationAt
        = d.dates.finalizationAt ∧
     (EVMChainHandler.initializeDeposit d o now).record.hashes = d.hashes ∧
     (EVMChainHandler.initializeDeposit d o now).record.error
        = some (o.errReason.getD "Unknown error") ∧
     (EVMChainHandler.initializeDeposit d o now).record.dates.lastActivityAt = now) ∧
    ((EVMChainHandler.finalizeDeposit d o now).record.status = d.status ∧
     (EVMChainHandler.finalizeDeposit d o now).record.dates.initializationAt
        = d.dates.initializationAt ∧
     (EVMChainHandler.finalizeDeposit d o now).record.dates.finalizationAt
        = d.dates.finalizationAt ∧
     (EVMChainHandler.finalizeDeposit d o now).record.hashes = d.hashes ∧
     (EVMChainHandler.finalizeDeposit d o now).record.error
        = some (o.errReason.getD "Unknown error") ∧
     (EVMChainHandler.finalizeDeposit d o now).record.dates.lastActivityAt = now) ∧
    (∀ r, o = ChainTxOutcome.preflightRevert r →
     (EVMChainHandler.initializeDeposit d o now).sent = [] ∧
     (EVMChainHandler.finalizeDeposit d o now).sent = []) := by
  cases o <;>
    simp_all [EVMChainHandler.initializeDeposit, EVMChainHandler.finalizeDeposit,
      updateToInitializedDeposit, updateToFinalizedDeposit,
      ChainTxOutcome.isError, ChainTxOutcome.errReason]

/-- Witness for C4 at a concrete record and a concrete pre-flight revert. -/
theorem txErrorPathPreservesRecord_witness :
    (EVMChainHandler.initializeDeposit dBase
      (ChainTxOutcome.preflightRevert (some "bad reveal")) 7).record.error
        = some "bad reveal" ∧
    (EVMChainHandler.initializeDeposit dBase
      (ChainTxOutcome.preflightRevert (some "bad reveal")) 7).record.status = dBase.status ∧
    (EVMChainHandler.initializeDeposit dBase
      (ChainTxOutcome.preflightRevert (some "bad reveal")) 7).sent = [] := by
  have h := txErrorPathPreservesRecord dBase
    (ChainTxOutcome.preflightRevert (some "bad reveal")) 7 rfl
  exact ⟨h.1.2.2.2.2.1, h.1.1, (h.2.2 (some "bad reveal") rfl).1⟩

/-- Claim C3 (counterexample): the hash/status invariant is not preserved by
every record-update operation from every invariant-satisfying input:
updateToInitializedDeposit applied with a tx to a FINALIZED record whose
finalizeTxHash is set yields status INITIALIZED with finalizeTxHash still
set, and updateDepositHashes called with status QUEUED and txType
"initialize" yields a set initializeTxHash with status QUEUED. -/
theorem hashStatusInvariant_not_preserved :
    hashStatusInvariant dFin ∧
    ¬ hashStatusInvariant (updateToInitializedDeposit dFin (some { hash := some "0xi2" }) none 40) ∧
    hashStatusInvariant dBase ∧
    ¬ hashStatusInvariant (updateDepositHashes dBase DepositStatus.QUEUED "0x01" "initialize" 40) := by
  decide

/-- Claim C3 (amended): createDeposit establishes the hash/status invariant;
updateToFinalizedDeposit and updateLastActivity preserve it from any input;
updateToInitializedDeposit preserves it from inputs whose finalizeTxHash is
null; and updateDepositHashes preserves it when the status argument is
consistent with txType (at least INITIALIZED with a null input
finalizeTxHash for "initialize"; FINALIZED for "finalize"). -/
theorem hashStatusInvariant_preservation :
    (∀ env ftx rev own snd now d2,
      createDeposit env ftx rev own snd now = Except.ok d2 → hashStatusInvariant d2) ∧
    (∀ d tx err now, hashStatusInvariant d →
      hashStatusInvariant (updateToFinalizedDeposit d tx err now)) ∧
    (∀ d now, hashStatusInvariant d → hashStatusInvariant (updateLastActivity d now)) ∧
    (∀ d tx err now, hashStatusInvariant d → d.hashes.eth.finalizeTxHash = none →
      hashStatusInvariant (updateToInitializedDeposit d tx err now)) ∧
    (∀ d s h now, DepositStatus.INITIALIZED ≤ s → d.hashes.eth.finalizeTxHash = none →
      hashStatusInvariant (updateDepositHashes d s h "initialize" now)) ∧
    (∀ d s h now, s = DepositStatus.FINALIZED → hashStatusInvariant d →
      hashStatusInvariant (updateDepositHashes d s h "finalize" now)) := by
  refine ⟨?_, ?_, ?_, ?_, ?_, ?_⟩
  · intro env ftx rev own snd now d2 h
    simp only [createDeposit] at h
    cases hid : getDepositId env.keccak (env.getFundingTxHash ftx) rev.fundingOutputIndex with
    | error e => rw [hid] at h; exact absurd h (by simp)
    | ok i =>
        rw [hid] at h
        simp only [Except.ok.injEq] at h
        rw [← h]
        simp [hashStatusInvariant]
  · intro d tx err now hInv
    cases tx with
    | none => exact ⟨fun hf => hInv.1 hf, fun hi => hInv.2 hi⟩
    | some t =>
        refine ⟨fun _ => rfl, fun _ => ?_⟩
        simp [updateToFinalizedDeposit, DepositStatus.INITIALIZED, DepositStatus.FINALIZED]
  · intro d now hInv
    exact ⟨fun hf => hInv.1 hf, fun hi => hInv.2 hi⟩
  · intro d tx err now hInv hfin
    cases tx with
    | none => exact ⟨fun hf => hInv.1 hf, fun hi => hInv.2 hi⟩
    | some t =>
        refine ⟨fun hf => absurd ?_ hf, fun _ => ?_⟩
        · simp [updateToInitializedDeposit, hfin]
        · simp [updateToInitializedDeposit, DepositStatus.INITIALIZED]
  · intro d s h now hs hfin
    refine ⟨fun hf => absurd ?_ hf, fun _ => ?_⟩
    · simp [updateDepositHashes, hfin]
    · simpa [updateDepositHashes] using hs
  · intro d s h now hs hInv
    subst hs
    refine ⟨fun _ => rfl, fun _ => ?_⟩
    simp [updateDepositHashes, DepositStatus.INITIALIZED, DepositStatus.FINALIZED]

/-- Witness for C3's amended claim at concrete records. -/
theorem hashStatusInvariant_preservation_witness :
    hashStatusInvariant (updateToFinalizedDeposit dBase none none 50) ∧
    hashStatusInvariant (updateToInitializedDeposit dBase (some { hash := some "0xi" }) none 50) ∧
    hashStatusInvariant (updateDepositHashes dFin DepositStatus.FINALIZED "0xf2" "finalize" 50) := by
  obtain ⟨h1, h2, h3, h4, h5, h6⟩ := hashStatusInvariant_preservation
  exact ⟨h2 dBase none none 50 (by decide),
         h4 dBase (some { hash := some "0xi" }) none 50 (by decide) (by decide),
         h6 dFin DepositStatus.FINALIZED "0xf2" 50 rfl (by decide)⟩

/-- Claim C1 (code_bug evidence): starting from the empty store, one
DepositInitialized event whose initialize attempt succeeds leaves the
record at id "0" INITIALIZED; a duplicate of the same event whose
pre-flight then reverts makes the listener's catch persist the freshly
created record, overwriting the stored status with QUEUED — the persisted
status strictly decreases. -/
theorem listener_status_regression :
    (getJsonById (depositInitializedListener env0 ftx0 rev0 "owner" "sender"
        (ChainTxOutcome.success (some "0xinit")) 50 []).1 "0").map (fun d => d.status)
      = some DepositStatus.INITIALIZED ∧
    (getJsonById (depositInitializedListener env0 ftx0 rev0 "owner" "sender"
        (ChainTxOutcome.preflightRevert (some "Deposit already initialized")) 100
        (depositInitializedListener env0 ftx0 rev0 "owner" "sender"
          (ChainTxOutcome.success (some "0xinit")) 50 []).1).1 "0").map (fun d => d.status)
      = some DepositStatus.QUEUED ∧
    DepositStatus.QUEUED < DepositStatus.INITIALIZED := by
  decide

/-- Claim C5 (code_bug evidence): the EVM handler's checkForPastDeposits
deduplicates by the event's raw transactionHash, not by the derived
deposit id: with a record already stored under the derived id "0", the
event (whose derived id is exactly "0") still triggers an initialize
attempt on id "0". -/
theorem pastDeposits_wrong_dedup_key :
    (createDeposit env0 ev0.fundingTx ev0.reveal ev0.l2DepositOwner ev0.l2Sender 100).toOption.map
        (fun d => d.id) = some "0" ∧
    (getJsonById [("0", dInit)] "0").isSome = true ∧
    (EVMChainHandler.checkForPastDeposits env0
        (fun _ => ChainTxOutcome.preflightRevert (some "Deposit already initialized")) 100
        [ev0] [("0", dInit)]).2 = ["0"] := by
  decide

theorem hexBytes?_isSome : ∀ (l : List Char), l.length % 2 = 0 →
    (∀ c ∈ l, (hexDigitVal? c).isSome = true) → (hexBytes? l).isSome = true
  | [], _, _ => by simp [hexBytes?]
  | [c], h, _ => by simp at h
  | c1 :: c2 :: rest, h, hall => by
      have h1 := hall c1 (by simp)
      have h2 := hall c2 (by simp)
      have hlen : rest.length % 2 = 0 := by
        simp only [List.length_cons] at h
        omega
      have hr := hexBytes?_isSome rest hlen (fun c hc => hall c (by simp [hc]))
      rcases Option.isSome_iff_exists.mp h1 with ⟨v1, hv1⟩
      rcases Option.isSome_iff_exists.mp h2 with ⟨v2, hv2⟩
      rcases Option.isSome_iff_exists.mp hr with ⟨t, ht⟩
      simp [hexBytes?, hv1, hv2, ht]

/-- Claim C2: for every 64-hex-character fundingTxHash and u32 outputIndex,
getDepositId succeeds and returns exactly the spec's id — the decimal
string of keccak256(bytes32(fundingTxHash) || uint32_be(outputIndex))
interpreted as an unsigned 256-bit big-endian integer (equal inputs give
equal ids since the function is pure); for every fundingTxHash whose
length is not 64 it fails with the invalid-funding-hash error. -/
theorem getDepositId_matches_spec (keccak : List Nat → List Nat)
    (fundingTxHash : String) (idx : Nat) :
    (fundingTxHash.length = 64 → idx < 2 ^ 32 →
      (∀ c ∈ fundingTxHash.data, (hexDigitVal? c).isSome = true) →
      ∃ hb, hexBytes? fundingTxHash.data = some hb ∧
        getDepositId keccak fundingTxHash idx = Except.ok (depositIdOfSpec keccak hb idx)) ∧
    (fundingTxHash.length ≠ 64 →
      getDepositId keccak fundingTxHash idx = Except.error "Invalid fundingTxHash") := by
  constructor
  · intro h64 _ hhex
    have hdlen : fundingTxHash.data.length = 64 := h64
    have hlen : fundingTxHash.data.length % 2 = 0 := by omega
    obtain ⟨hb, hhb⟩ := Option.isSome_iff_exists.mp (hexBytes?_isSome _ hlen hhex)
    refine ⟨hb, hhb, ?_⟩
    unfold getDepositId
    rw [if_neg (fun hcon => hcon h64)]
    rw [hhb]
    rfl
  · intro hne
    unfold getDepositId
    rw [if_pos hne]

/-- Witness for C2 at the concrete all-zero 64-hex hash, index 0 and a
concrete keccak stand-in, plus a too-short hash for the error branch. -/
theorem getDepositId_matches_spec_witness :
    (∃ hb, hexBytes? z64.data = some hb ∧
      getDepositId (fun _ => List.replicate 32 0) z64 0
        = Except.ok (depositIdOfSpec (fun _ => List.replicate 32 0) hb 0)) ∧
    getDepositId (fun _ => List.replicate 32 0) "abc" 0
      = Except.error "Invalid fundingTxHash" :=
  ⟨(getDepositId_matches_spec (fun _ => List.replicate 32 0) z64 0).1
      (by decide) (by decide) (by decide),
   (getDepositId_matches_spec (fun _ => List.replicate 32 0) "abc" 0).2 (by decide)⟩

theorem getBlocksByTimestampLoop_good (getBlock : Int → Except String (Option BlockHeader))
    (t : Nat) :
    ∀ (n : Nat) (low high : Int) (acc : Option Int), (high + 1 - low).toNat ≤ n →
    (∀ m, acc = some m → ∃ b, getBlock m = Except.ok (some b) ∧ b.timestamp ≤ t) →
    ∀ ex, getBlocksByTimestampLoop getBlock t low high acc = ex →
    ∀ m, ex.startBlock = some m →
    ∃ b, getBlock m = Except.ok (some b) ∧ b.timestamp ≤ t := by
  intro n
  induction n with
  | zero =>
      intro low high acc hn hacc ex hex m hm
      rw [getBlocksByTimestampLoop] at hex
      rw [dif_neg (by omega : ¬ low ≤ high)] at hex
      rw [← hex] at hm
      exact hacc m hm
  | succ n ih =>
      intro low high acc hn hacc ex hex m hm
      by_cases hlh : low ≤ high
      · rw [getBlocksByTimestampLoop] at hex
        rw [dif_pos hlh] at hex
        simp only at hex
        split at hex
        · rw [← hex] at hm
          exact hacc m hm
        · exact ih low ((low + high) / 2 - 1) acc (by omega) hacc ex hex m hm
        · rename_i b hgb
          by_cases hts : b.timestamp = t
          · rw [if_pos hts] at hex
            rw [← hex] at hm
            have hm2 : some ((low + high) / 2) = some m := hm
            refine ⟨b, ?_, le_of_eq hts⟩
            rw [← Option.some.inj hm2]
            exact hgb
          · rw [if_neg hts] at hex
            by_cases hlt : b.timestamp < t
            · rw [if_pos hlt] at hex
              refine ih ((low + high) / 2 + 1) high (some ((low + high) / 2))
                (by omega) ?_ ex hex m hm
              intro m2 hm2
              rw [← Option.some.inj hm2]
              exact ⟨b, hgb, le_of_lt hlt⟩
            · rw [if_neg hlt] at hex
              exact ih low ((low + high) / 2 - 1) acc (by omega) hacc ex hex m hm
      · rw [getBlocksByTimestampLoop] at hex
        rw [dif_neg hlh] at hex
        rw [← hex] at hm
        exact hacc m hm

theorem getBlocksByTimestampLoop_no_abort
    (getBlock : Int → Except String (Option BlockHeader)) (t : Nat)
    (hne : ∀ m e, getBlock m ≠ Except.error e) :
    ∀ (n : Nat) (low high : Int) (acc : Option Int), (high + 1 - low).toNat ≤ n →
    ∀ s, getBlocksByTimestampLoop getBlock t low high acc ≠ LoopExit.aborted s := by
  intro n
  induction n with
  | zero =>
      intro low high acc hn s hex
      rw [getBlocksByTimestampLoop] at hex
      rw [dif_neg (by omega : ¬ low ≤ high)] at hex
      exact LoopExit.noConfusion hex
  | succ n ih =>
      intro low high acc hn s hex
      by_cases hlh : low ≤ high
      · rw [getBlocksByTimestampLoop] at hex
        rw [dif_pos hlh] at hex
        simp only at hex
        split at hex
        · rename_i e hgb
          exact hne _ e hgb
        · exact ih low ((low + high) / 2 - 1) acc (by omega) s hex
        · rename_i b hgb
          by_cases hts : b.timestamp = t
          · rw [if_pos hts] at hex
            exact LoopExit.noConfusion hex
          · rw [if_neg hts] at hex
            by_cases hlt : b.timestamp < t
            · rw [if_pos hlt] at hex
              exact ih ((low + high) / 2 + 1) high (some ((low + high) / 2)) (by omega) s hex
            · rw [if_neg hlt] at hex
              exact ih low ((low + high) / 2 - 1) acc (by omega) s hex
      · rw [getBlocksByTimestampLoop] at hex
        rw [dif_neg hlh] at hex
        exact LoopExit.noConfusion hex

/-- Claim C9 (counterexample): with a block oracle whose first call throws,
getBlocksByTimestamp returns the -1 sentinel as startBlock — neither the
START_BLOCK fallback (here 5) nor a block whose timestamp is at most the
target — because the catch skips the fallback inside the try. -/
theorem getBlocksByTimestamp_throw_sentinel :
    (getBlocksByTimestamp getBlockThrows 5 100 10).1 = -1 ∧
    (getBlocksByTimestamp getBlockThrows 5 100 10).2 = 10 ∧
    (getBlocksByTimestamp getBlockThrows 5 100 10).1 ≠ ((5 : Nat) : Int) ∧
    ¬ ∃ b, getBlockThrows (getBlocksByTimestamp getBlockThrows 5 100 10).1
        = Except.ok (some b) ∧ b.timestamp ≤ 100 := by
  have hloop : getBlocksByTimestampLoop getBlockThrows 100 (5 : Int) (10 : Int) none
      = LoopExit.aborted none := by
    rw [getBlocksByTimestampLoop]
    rw [dif_pos (by norm_num)]
    rfl
  have h1 : (getBlocksByTimestamp getBlockThrows 5 100 10).1 = -1 := by
    simp [getBlocksByTimestamp, hloop]
  refine ⟨h1, by simp [getBlocksByTimestamp, hloop], ?_, ?_⟩
  · rw [h1]
    decide
  · rw [h1]
    rintro ⟨b, hb, _⟩
    exact Except.noConfusion hb

/-- Claim C9 (amended): endBlock always equals latestBlock; when no getBlock
call throws, startBlock is the START_BLOCK fallback or a recorded
lower-bound candidate whose fetched timestamp is at most the target, as
claimed; but a thrown getBlock aborts the loop into the catch, which skips
the fallback, so in general startBlock may also be the -1 sentinel. -/
theorem getBlocksByTimestamp_bounds (getBlock : Int → Except String (Option BlockHeader))
    (START_BLOCK : Nat) (t : Nat) (latestBlock : Nat) :
    (getBlocksByTimestamp getBlock START_BLOCK t latestBlock).2 = latestBlock ∧
    ((getBlocksByTimestamp getBlock START_BLOCK t latestBlock).1 = -1 ∨
     (getBlocksByTimestamp getBlock START_BLOCK t latestBlock).1 = (START_BLOCK : Int) ∨
     ∃ b, getBlock (getBlocksByTimestamp getBlock START_BLOCK t latestBlock).1
        = Except.ok (some b) ∧ b.timestamp ≤ t) ∧
    ((∀ m e, getBlock m ≠ Except.error e) →
     (getBlocksByTimestamp getBlock START_BLOCK t latestBlock).1 = (START_BLOCK : Int) ∨
     ∃ b, getBlock (getBlocksByTimestamp getBlock START_BLOCK t latestBlock).1
        = Except.ok (some b) ∧ b.timestamp ≤ t) := by
  refine ⟨?_, ?_, ?_⟩
  · unfold getBlocksByTimestamp
    split <;> rfl
  · cases hres : getBlocksByTimestampLoop getBlock t (START_BLOCK : Int) (latestBlock : Int) none with
    | completed s =>
        cases s with
        | none =>
            right; left
            simp [getBlocksByTimestamp, hres]
        | some sb =>
            right; right
            have hgood := getBlocksByTimestampLoop_good getBlock t
              ((latestBlock : Int) + 1 - (START_BLOCK : Int)).toNat (START_BLOCK : Int)
              (latestBlock : Int) none (le_refl _) (fun m2 hm2 => nomatch hm2)
              (LoopExit.completed (some sb)) hres sb rfl
            simpa [getBlocksByTimestamp, hres] using hgood
    | aborted s =>
        cases s with
        | none =>
            left
            simp [getBlocksByTimestamp, hres]
        | some sb =>
            right; right
            have hgood := getBlocksByTimestampLoop_good getBlock t
              ((latestBlock : Int) + 1 - (START_BLOCK : Int)).toNat (START_BLOCK : Int)
              (latestBlock : Int) none (le_refl _) (fun m2 hm2 => nomatch hm2)
              (LoopExit.aborted (some sb)) hres sb rfl
            simpa [getBlocksByTimestamp, hres] using hgood
  · intro hne
    cases hres : getBlocksByTimestampLoop getBlock t (START_BLOCK : Int) (latestBlock : Int) none with
    | completed s =>
        cases s with
        | none =>
            left
            simp [getBlocksByTimestamp, hres]
        | some sb =>
            right
            have hgood := getBlocksByTimestampLoop_good getBlock t
              ((latestBlock : Int) + 1 - (START_BLOCK : Int)).toNat (START_BLOCK : Int)
              (latestBlock : Int) none (le_refl _) (fun m2 hm2 => nomatch hm2)
              (LoopExit.completed (some sb)) hres sb rfl
            simpa [getBlocksByTimestamp, hres] using hgood
    | aborted s =>
        exact absurd hres (getBlocksByTimestampLoop_no_abort getBlock t hne
          ((latestBlock : Int) + 1 - (START_BLOCK : Int)).toNat (START_BLOCK : Int)
          (latestBlock : Int) none (le_refl _) s)

/-- Witness for C9's amended claim: the never-throwing all-null-blocks oracle
reaches the no-throw conclusion at concrete inputs. -/
theorem getBlocksByTimestamp_bounds_witness :
    (getBlocksByTimestamp getBlockAllNull 5 100 10).1 = ((5 : Nat) : Int) ∨
    ∃ b, getBlockAllNull (getBlocksByTimestamp getBlockAllNull 5 100 10).1
        = Except.ok (some b) ∧ b.timestamp ≤ 100 :=
  (getBlocksByTimestamp_bounds getBlockAllNull 5 100 10).2.2
    (fun _ _ h => Except.noConfusion h)

theorem initializeDeposit_sent (d : Deposit) (o : ChainTxOutcome) (now : Nat) :
    ∀ y ∈ (EVMChainHandler.initializeDeposit d o now).sent, y = d.id := by
  cases o <;> simp [EVMChainHandler.initializeDeposit]

theorem finalizeDeposit_sent (d : Deposit) (o : ChainTxOutcome) (now : Nat) :
    ∀ y ∈ (EVMChainHandler.finalizeDeposit d o now).sent, y = d.id := by
  cases o <;> simp [EVMChainHandler.finalizeDeposit]

theorem initPassStep_sent (env : TickEnv) (u : Deposit) :
    ∀ y ∈ (initPassStep env u).2, y = u.id := by
  intro y hy
  unfold initPassStep at hy
  split at hy
  · simp at hy
  · simp only at hy
    exact initializeDeposit_sent _ _ _ y hy
  · simp at hy
  · simp at hy

theorem finPassStep_sent (env : TickEnv) (u : Deposit) :
    ∀ y ∈ (finPassStep env u).2, y = u.id := by
  intro y hy
  unfold finPassStep at hy
  split at hy
  · simp only at hy
    exact finalizeDeposit_sent _ _ _ y hy
  · simp at hy
  · simp at hy

theorem runPass_checked (step : TickEnv → Deposit → Option Deposit × List String)
    (env : TickEnv) :
    ∀ (l : List Deposit) (store : DepositStore),
    (runPass step env l store).checked = l.map (fun d => d.id) := by
  intro l
  induction l with
  | nil => intro store; rfl
  | cons d rest ih =>
      intro store
      simp only [runPass]
      rw [ih]
      simp [updateLastActivity]

theorem runPass_sent_from (step : TickEnv → Deposit → Option Deposit × List String)
    (env : TickEnv) :
    ∀ (l : List Deposit) (store : DepositStore),
    ∀ y ∈ (runPass step env l store).sent,
      ∃ e ∈ l, y ∈ (step env (updateLastActivity e env.now)).2 := by
  intro l
  induction l with
  | nil => intro store y hy; simp [runPass] at hy
  | cons d rest ih =>
      intro store y hy
      simp only [runPass] at hy
      rw [List.mem_append] at hy
      rcases hy with hy1 | hy2
      · exact ⟨d, by simp, hy1⟩
      · obtain ⟨e, he, hy3⟩ := ih _ y hy2
        exact ⟨e, by simp [he], hy3⟩

theorem runPass_lookup_ne (step : TickEnv → Deposit → Option Deposit × List String)
    (env : TickEnv) (x : String) :
    ∀ (l : List Deposit) (store : DepositStore), (∀ e ∈ l, e.id ≠ x) →
    getJsonById (runPass step env l store).store x = getJsonById store x := by
  intro l
  induction l with
  | nil => intro store _; rfl
  | cons d rest ih =>
      intro store hl
      have hdx : d.id ≠ x := hl d (by simp)
      have hxd : x ≠ d.id := fun hh => hdx hh.symm
      simp only [runPass]
      rw [ih _ (fun e he => hl e (by simp [he]))]
      cases hs : (step env (updateLastActivity d env.now)).1 with
      | none =>
          exact getJsonById_writeJson_ne _ _ _ _ hxd
      | some rec2 =>
          show getJsonById
            (writeJson (writeJson store (updateLastActivity d env.now) d.id) rec2 d.id) x
              = getJsonById store x
          rw [getJsonById_writeJson_ne _ _ _ _ hxd]
          exact getJsonById_writeJson_ne _ _ _ _ hxd

theorem runPass_lookup_focus (step : TickEnv → Deposit → Option Deposit × List String)
    (env : TickEnv) (d : Deposit) :
    ∀ (l : List Deposit) (store : DepositStore), d ∈ l →
    (∀ e ∈ l, e.id = d.id → e = d) →
    getJsonById (runPass step env l store).store d.id
      = some (((step env (updateLastActivity d env.now)).1).getD (updateLastActivity d env.now)) := by
  intro l
  induction l with
  | nil => intro store hd; simp at hd
  | cons e rest ih =>
      intro store hd huniq
      by_cases hdr : d ∈ rest
      · simp only [runPass]
        exact ih _ hdr (fun x hx hxid => huniq x (by simp [hx]) hxid)
      · have hde : d = e := by
          rcases List.mem_cons.mp hd with h1 | h2
          · exact h1
          · exact absurd h2 hdr
        subst hde
        have hrest : ∀ x ∈ rest, x.id ≠ d.id := by
          intro x hx hxid
          exact hdr ((huniq x (by simp [hx]) hxid) ▸ hx)
        simp only [runPass]
        rw [runPass_lookup_ne step env d.id rest _ hrest]
        cases hs : (step env (updateLastActivity d env.now)).1 with
        | none =>
            show getJsonById (writeJson store (updateLastActivity d env.now) d.id) d.id
              = some (updateLastActivity d env.now)
            exact getJsonById_writeJson_self _ _ _
        | some rec2 =>
            show getJsonById
              (writeJson (writeJson store (updateLastActivity d env.now) d.id) rec2 d.id) d.id
                = some rec2
            exact getJsonById_writeJson_self _ _ _

theorem keysNodup_entry_unique :
    ∀ (store : DepositStore), keysNodup store →
    ∀ (k : String) (a b : Deposit), (k, a) ∈ store → (k, b) ∈ store → a = b := by
  intro store
  induction store with
  | nil => intro _ k a b ha; simp at ha
  | cons p rest ih =>
      intro hnd k a b ha hb
      have hnd2 : keysNodup rest := by
        unfold keysNodup at hnd ⊢
        rw [List.map_cons, List.nodup_cons] at hnd
        exact hnd.2
      have hkey : p.1 ∉ rest.map (fun q => q.1) := by
        unfold keysNodup at hnd
        rw [List.map_cons, List.nodup_cons] at hnd
        exact hnd.1
      rcases List.mem_cons.mp ha with ha1 | ha2
      · rcases List.mem_cons.mp hb with hb1 | hb2
        · have hab := ha1.trans hb1.symm
          injection hab with _ h2
        · exfalso
          apply hkey
          rw [← ha1]
          exact List.mem_map.mpr ⟨(k, b), hb2, rfl⟩
      · rcases List.mem_cons.mp hb with hb1 | hb2
        · exfalso
          apply hkey
          rw [← hb1]
          exact List.mem_map.mpr ⟨(k, a), ha2, rfl⟩
        · exact ih hnd2 k a b ha2 hb2

theorem store_value_unique (store : DepositStore) (hwk : wellKeyed store)
    (hnd : keysNodup store) (k : String) (d : Deposit) (hmem : (k, d) ∈ store) :
    ∀ e ∈ store.map (fun p => p.2), e.id = d.id → e = d := by
  intro e he heid
  obtain ⟨q, hq, hq2⟩ := List.mem_map.mp he
  have hqid : q.2.id = q.1 := hwk q hq
  have hdid : d.id = k := hwk (k, d) hmem
  have hq1 : q.1 = k := by rw [← hqid, hq2, heid, hdid]
  have hke : (k, e) ∈ store := by
    have hqe : q = (k, e) := by
      obtain ⟨q1, q2⟩ := q
      simp only at hq1 hq2
      rw [hq1, hq2]
    rw [← hqe]
    exact hq
  exact keysNodup_entry_unique store hnd k e d hke hmem

/-- Claim C6: when a reconciler pass sees the on-chain status ahead of the
stored record — INITIALIZED for a QUEUED record in the initialize pass, or
FINALIZED for a QUEUED record there or an INITIALIZED record in the
finalize pass — it persists the remote status with the corresponding tx
hash null and the error field cleared, and sends no transaction for that
deposit. -/
theorem remoteStatusFastForward (env : TickEnv) (store : DepositStore) (k : String)
    (d : Deposit) (hmem : (k, d) ∈ store) (hwk : wellKeyed store) (hnd : keysNodup store)
    (helig : TIME_TO_RETRY < env.now - d.dates.lastActivityAt) :
    (d.status = DepositStatus.QUEUED →
      EVMChainHandler.checkDepositStatus (env.depositsCall d.id) = DepositStatus.INITIALIZED →
      (∃ w, getJsonById (processInitializeDeposits env store).store d.id = some w ∧
        w.status = DepositStatus.INITIALIZED ∧ w.hashes.eth.initializeTxHash = none ∧
        w.error = none) ∧
      d.id ∉ (processInitializeDeposits env store).sent) ∧
    (d.status = DepositStatus.QUEUED →
      EVMChainHandler.checkDepositStatus (env.depositsCall d.id) = DepositStatus.FINALIZED →
      (∃ w, getJsonById (processInitializeDeposits env store).store d.id = some w ∧
        w.status = DepositStatus.FINALIZED ∧ w.hashes.eth.finalizeTxHash = none ∧
        w.error = none) ∧
      d.id ∉ (processInitializeDeposits env store).sent) ∧
    (d.status = DepositStatus.INITIALIZED →
      EVMChainHandler.checkDepositStatus (env.depositsCall d.id) = DepositStatus.FINALIZED →
      (∃ w, getJsonById (processFinalizeDeposits env store).store d.id = some w ∧
        w.status = DepositStatus.FINALIZED ∧ w.hashes.eth.finalizeTxHash = none ∧
        w.error = none) ∧
      d.id ∉ (processFinalizeDeposits env store).sent) := by
  have huniqAll := store_value_unique store hwk hnd k d hmem
  have hmap : d ∈ store.map (fun p => p.2) := List.mem_map.mpr ⟨(k, d), hmem, rfl⟩
  refine ⟨?_, ?_, ?_⟩
  · intro hstat hremote
    have hq : d ∈ getAllJsonOperationsByStatus store DepositStatus.QUEUED :=
      List.mem_filter.mpr ⟨hmap, by simp [hstat]⟩
    have hf : d ∈ filterDepositsActivityTime
        (getAllJsonOperationsByStatus store DepositStatus.QUEUED) env.now :=
      List.mem_filter.mpr ⟨hq, by simpa using helig⟩
    have huniqF : ∀ e ∈ filterDepositsActivityTime
        (getAllJsonOperationsByStatus store DepositStatus.QUEUED) env.now,
        e.id = d.id → e = d :=
      fun e he heid =>
        huniqAll e (List.mem_of_mem_filter (List.mem_of_mem_filter he)) heid
    have hstep : initPassStep env (updateLastActivity d env.now)
        = (some (updateToInitializedDeposit (updateLastActivity d env.now)
            (some { hash := none }) none env.now), []) := by
      unfold initPassStep
      rw [show (updateLastActivity d env.now).id = d.id from rfl, hremote]
      rfl
    have hlook := runPass_lookup_focus initPassStep env d _ store hf huniqF
    rw [hstep] at hlook
    constructor
    · refine ⟨updateToInitializedDeposit (updateLastActivity d env.now)
        (some { hash := none }) none env.now, by simpa using hlook, ?_, ?_, ?_⟩
      · simp [updateToInitializedDeposit, DepositStatus.INITIALIZED]
      · simp [updateToInitializedDeposit]
      · simp [updateToInitializedDeposit]
    · intro hsent
      obtain ⟨e, heF, hy⟩ := runPass_sent_from initPassStep env _ store d.id hsent
      have heid : e.id = d.id := (initPassStep_sent env _ d.id hy).symm
      rw [huniqF e heF heid, hstep] at hy
      simp at hy
  · intro hstat hremote
    have hq : d ∈ getAllJsonOperationsByStatus store DepositStatus.QUEUED :=
      List.mem_filter.mpr ⟨hmap, by simp [hstat]⟩
    have hf : d ∈ filterDepositsActivityTime
        (getAllJsonOperationsByStatus store DepositStatus.QUEUED) env.now :=
      List.mem_filter.mpr ⟨hq, by simpa using helig⟩
    have huniqF : ∀ e ∈ filterDepositsActivityTime
        (getAllJsonOperationsByStatus store DepositStatus.QUEUED) env.now,
        e.id = d.id → e = d :=
      fun e he heid =>
        huniqAll e (List.mem_of_mem_filter (List.mem_of_mem_filter he)) heid
    have hstep : initPassStep env (updateLastActivity d env.now)
        = (some (updateToFinalizedDeposit (updateLastActivity d env.now)
            (some { hash := none }) none env.now), []) := by
      unfold initPassStep
      rw [show (updateLastActivity d env.now).id = d.id from rfl, hremote]
      rfl
    have hlook := runPass_lookup_focus initPassStep env d _ store hf huniqF
    rw [hstep] at hlook
    constructor
    · refine ⟨updateToFinalizedDeposit (updateLastActivity d env.now)
        (some { hash := none }) none env.now, by simpa using hlook, ?_, ?_, ?_⟩
      · simp [updateToFinalizedDeposit, DepositStatus.FINALIZED]
      · simp [updateToFinalizedDeposit]
      · simp [updateToFinalizedDeposit]
    · intro hsent
      obtain ⟨e, heF, hy⟩ := runPass_sent_from initPassStep env _ store d.id hsent
      have heid : e.id = d.id := (initPassStep_sent env _ d.id hy).symm
      rw [huniqF e heF heid, hstep] at hy
      simp at hy
  · intro hstat hremote
    have hq : d ∈ getAllJsonOperationsByStatus store DepositStatus.INITIALIZED :=
      List.mem_filter.mpr ⟨hmap, by simp [hstat]⟩
    have hf : d ∈ filterDepositsActivityTime
        (getAllJsonOperationsByStatus store DepositStatus.INITIALIZED) env.now :=
      List.mem_filter.mpr ⟨hq, by simpa using helig⟩
    have huniqF : ∀ e ∈ filterDepositsActivityTime
        (getAllJsonOperationsByStatus store DepositStatus.INITIALIZED) env.now,
        e.id = d.id → e = d :=
      fun e he heid =>
        huniqAll e (List.mem_of_mem_filter (List.mem_of_mem_filter he)) heid
    have hstep : finPassStep env (updateLastActivity d env.now)
        = (some (updateToFinalizedDeposit (updateLastActivity d env.now)
            (some { hash := none }) none env.now), []) := by
      unfold finPassStep
      rw [show (updateLastActivity d env.now).id = d.id from rfl, hremote]
      rfl
    have hlook := runPass_lookup_focus finPassStep env d _ store hf huniqF
    rw [hstep] at hlook
    constructor
    · refine ⟨updateToFinalizedDeposit (updateLastActivity d env.now)
        (some { hash := none }) none env.now, by simpa using hlook, ?_, ?_, ?_⟩
      · simp [updateToFinalizedDeposit, DepositStatus.FINALIZED]
      · simp [updateToFinalizedDeposit]
      · simp [updateToFinalizedDeposit]
    · intro hsent
      obtain ⟨e, heF, hy⟩ := runPass_sent_from finPassStep env _ store d.id hsent
      have heid : e.id = d.id := (finPassStep_sent env _ d.id hy).symm
      rw [huniqF e heF heid, hstep] at hy
      simp at hy

/-- Witness for C6: a single-record store fast-forwarded by each pass. -/
theorem remoteStatusFastForward_witness :
    ((∃ w, getJsonById (processInitializeDeposits tick1 [("0", dBase)]).store "0" = some w ∧
        w.status = DepositStatus.INITIALIZED ∧ w.hashes.eth.initializeTxHash = none ∧
        w.error = none) ∧
      "0" ∉ (processInitializeDeposits tick1 [("0", dBase)]).sent) ∧
    ((∃ w, getJsonById (processFinalizeDeposits tick2 [("0", dInit)]).store "0" = some w ∧
        w.status = DepositStatus.FINALIZED ∧ w.hashes.eth.finalizeTxHash = none ∧
        w.error = none) ∧
      "0" ∉ (processFinalizeDeposits tick2 [("0", dInit)]).sent) := by
  have h1 := (remoteStatusFastForward tick1 [("0", dBase)] "0" dBase (by decide)
    (by decide) (by decide) (by decide)).1 rfl (by decide)
  have h2 := (remoteStatusFastForward tick2 [("0", dInit)] "0" dInit (by decide)
    (by decide) (by decide) (by decide)).2.2 rfl (by decide)
  exact ⟨h1, h2⟩

/-- Claim C7: a deposit whose lastActivityAt is within the last TIME_TO_RETRY
(5 minutes) of now is skipped by both reconciler passes: its stored record
is unchanged, its status is not checked and no transaction is sent for it. -/
theorem activityThrottleSkips (env : TickEnv) (store : DepositStore) (k : String)
    (d : Deposit) (hmem : (k, d) ∈ store) (hwk : wellKeyed store) (hnd : keysNodup store)
    (hrecent : env.now - d.dates.lastActivityAt ≤ TIME_TO_RETRY) :
    (getJsonById (processInitializeDeposits env store).store d.id = getJsonById store d.id ∧
     d.id ∉ (processInitializeDeposits env store).checked ∧
     d.id ∉ (processInitializeDeposits env store).sent) ∧
    (getJsonById (processFinalizeDeposits env store).store d.id = getJsonById store d.id ∧
     d.id ∉ (processFinalizeDeposits env store).checked ∧
     d.id ∉ (processFinalizeDeposits env store).sent) := by
  have huniqAll := store_value_unique store hwk hnd k d hmem
  have hnotid1 : ∀ e ∈ filterDepositsActivityTime
      (getAllJsonOperationsByStatus store DepositStatus.QUEUED) env.now, e.id ≠ d.id := by
    intro e he heid
    have hed : e = d :=
      huniqAll e (List.mem_of_mem_filter (List.mem_of_mem_filter he)) heid
    rw [hed] at he
    have := (List.mem_filter.mp he).2
    simp at this
    omega
  have hnotid2 : ∀ e ∈ filterDepositsActivityTime
      (getAllJsonOperationsByStatus store DepositStatus.INITIALIZED) env.now, e.id ≠ d.id := by
    intro e he heid
    have hed : e = d :=
      huniqAll e (List.mem_of_mem_filter (List.mem_of_mem_filter he)) heid
    rw [hed] at he
    have := (List.mem_filter.mp he).2
    simp at this
    omega
  refine ⟨⟨?_, ?_, ?_⟩, ⟨?_, ?_, ?_⟩⟩
  · exact runPass_lookup_ne initPassStep env d.id _ store hnotid1
  · intro hch
    simp only [processInitializeDeposits] at hch
    rw [runPass_checked] at hch
    obtain ⟨e, he, heid⟩ := List.mem_map.mp hch
    exact hnotid1 e he heid
  · intro hsent
    obtain ⟨e, he, hy⟩ := runPass_sent_from initPassStep env _ store d.id hsent
    exact hnotid1 e he ((initPassStep_sent env _ d.id hy).symm)
  · exact runPass_lookup_ne finPassStep env d.id _ store hnotid2
  · intro hch
    simp only [processFinalizeDeposits] at hch
    rw [runPass_checked] at hch
    obtain ⟨e, he, heid⟩ := List.mem_map.mp hch
    exact hnotid2 e he heid
  · intro hsent
    obtain ⟨e, he, hy⟩ := runPass_sent_from finPassStep env _ store d.id hsent
    exact hnotid2 e he ((finPassStep_sent env _ d.id hy).symm)

/-- Witness for C7: a record touched 100 seconds ago is skipped whole by
both passes. -/
theorem activityThrottleSkips_witness :
    (getJsonById (processInitializeDeposits tick1 [("0", dRecent)]).store "0"
        = getJsonById [("0", dRecent)] "0" ∧
     "0" ∉ (processInitializeDeposits tick1 [("0", dRecent)]).checked ∧
     "0" ∉ (processInitializeDeposits tick1 [("0", dRecent)]).sent) ∧
    (getJsonById (processFinalizeDeposits tick1 [("0", dRecent)]).store "0"
        = getJsonById [("0", dRecent)] "0" ∧
     "0" ∉ (processFinalizeDeposits tick1 [("0", dRecent)]).checked ∧
     "0" ∉ (processFinalizeDeposits tick1 [("0", dRecent)]).sent) :=
  activityThrottleSkips tick1 [("0", dRecent)] "0" dRecent (by decide) (by decide)
    (by decide) (by decide)

end Relayer
